import Mathlib

/-!
# Verification of the RouteWriter route-optimisation core

A shallow embedding of the routing core of the RouteWriter service
(`app.py`): the travel-time matrix builder `build_distance_matrix`, the
solver wrapper `solve_vrp`, and the `/optimize` request orchestrator.

The third-party travel-time provider is modelled as a pure function from
an (origins, destinations) pair of address lists to a grid of response
elements, and the OR-Tools search is modelled as an abstract value of type
`Solution V J`: any assignment of the job nodes `[V, V+J)` to the `V`
vehicles in which every job node occurs exactly once, which is exactly
the feasibility guarantee of the OR-Tools routing model built by
`solve_vrp` (all nodes mandatory, one visit each, vehicle `v` starting
and ending at depot node `v`).  Everything downstream of these two
collaborators — block decomposition of the matrix build, error
propagation, route extraction, depot stripping, travel-time accumulation,
request validation and response shaping — is translated directly from
the source.
-/

namespace RouteWriter

/-- One cell of a provider distance-matrix response: a status string and the
duration in whole seconds (`element["duration"]["value"]`). -/
structure Element where
  status : String
  duration : Nat
  deriving DecidableEq

/-- Default element used for out-of-range `getD` reads. -/
def dEl : Element := ⟨"", 0⟩

/-- The travel-time provider, as seen by `build_distance_matrix`: one call
takes the origin and destination address lists of one block and returns one
row of elements per origin (`response["rows"][i]["elements"][j]`). -/
abbrev Provider := List String → List String → List (List Element)

/-- One provider call, recorded as the (origins, destinations) pair passed. -/
abbrev Call := List String × List String

/-- A travel-time matrix, as in the source: a list of rows of seconds. -/
abbrev Mat := List (List Nat)

/-- `matrix[i][j]` (0 when out of range). -/
def mget (m : Mat) (i j : Nat) : Nat := (m.getD i []).getD j 0

/-- `matrix[i][j] = v` (no-op when out of range, which never happens on the
in-range writes performed by the builder). -/
def mset (m : Mat) (i j v : Nat) : Mat := m.set i ((m.getD i []).set j v)

/-- `[[0] * n for _ in range(n)]`. -/
def zeroMat (n : Nat) : Mat := List.replicate n (List.replicate n 0)

/-- `m` is an `n × n` matrix. -/
def Dims (m : Mat) (n : Nat) : Prop := m.length = n ∧ ∀ r ∈ m, r.length = n

/-- `chunk_size = 10`: the provider block limit. -/
def chunkSize : Nat := 10

/-- Number of blocks per axis: `⌈n / chunkSize⌉`. -/
def numChunks (n : Nat) : Nat := (n + chunkSize - 1) / chunkSize

/-- The block start offsets `range(0, n, chunk_size)`. -/
def blockStarts (n : Nat) : List Nat := (List.range (numChunks n)).map (· * chunkSize)

/-- The address slice `addresses[s : s + chunk_size]`. -/
def sliceChunk (a : List String) (s : Nat) : List String := (a.drop s).take chunkSize

/-- The `ValueError` message raised for a non-`"OK"` provider cell. -/
def driveTimeErr (addrFrom addrTo status : String) : String :=
  "Could not get drive time between '" ++ addrFrom ++ "' and '" ++ addrTo ++
    "'. Status: " ++ status

/-- The inner loop `for j_offset, element in enumerate(row["elements"])` of
`build_distance_matrix`, for the row of origin index `i`: check each cell's
status and write its duration into `matrix[i][j_start + j_offset]`. -/
def processRow (a : List String) (i jStart : Nat) :
    Nat → List Element → Mat → Except String Mat
  | _, [], m => .ok m
  | jOff, e :: es, m =>
    if e.status ≠ "OK" then
      .error (driveTimeErr (a.getD i "") (a.getD (jStart + jOff) "") e.status)
    else
      processRow a i jStart (jOff + 1) es (mset m i (jStart + jOff) e.duration)

/-- The loop `for i_offset, row in enumerate(response["rows"])` of
`build_distance_matrix`, for the block at `(i_start, j_start)`. -/
def processRows (a : List String) (iStart jStart : Nat) :
    Nat → List (List Element) → Mat → Except String Mat
  | _, [], m => .ok m
  | iOff, r :: rs, m =>
    match processRow a (iStart + iOff) jStart 0 r m with
    | .error e => .error e
    | .ok m1 => processRows a iStart jStart (iOff + 1) rs m1

/-- The inner loop `for j_start in range(0, n, chunk_size)` of
`build_distance_matrix`: issue one provider call per `(i_start, j_start)`
block and process its rows.  The issued calls are recorded in order. -/
def processJBlocks (p : Provider) (a : List String) (iStart : Nat) :
    List Nat → Mat → List Call → (Except String Mat) × List Call
  | [], m, calls => (.ok m, calls)
  | jStart :: rest, m, calls =>
    let origins := sliceChunk a iStart
    let destinations := sliceChunk a jStart
    let rows := p origins destinations
    let calls1 := calls ++ [(origins, destinations)]
    match processRows a iStart jStart 0 rows m with
    | .error e => (.error e, calls1)
    | .ok m1 => processJBlocks p a iStart rest m1 calls1

/-- The outer loop `for i_start in range(0, n, chunk_size)` of
`build_distance_matrix`. -/
def processIBlocks (p : Provider) (a : List String) :
    List Nat → Mat → List Call → (Except String Mat) × List Call
  | [], m, calls => (.ok m, calls)
  | iStart :: rest, m, calls =>
    match processJBlocks p a iStart (blockStarts a.length) m calls with
    | (.error e, calls1) => (.error e, calls1)
    | (.ok m1, calls1) => processIBlocks p a rest m1 calls1

/-- `build_distance_matrix(addresses)`: start from the zero matrix and fill
it block by block, aborting with a `ValueError` message on the first
non-`"OK"` cell.  The second component records every provider call issued. -/
def buildDistanceMatrix (p : Provider) (a : List String) :
    (Except String Mat) × List Call :=
  processIBlocks p a (blockStarts a.length) (zeroMat a.length) []

/-- The provider returns one row per origin and one element per destination
in every response — the response shape `build_distance_matrix` relies on. -/
def WellShaped (p : Provider) : Prop :=
  ∀ o d : List String, (p o d).length = o.length ∧ ∀ r ∈ p o d, r.length = d.length

/-- The provider response element covering the ordered address pair `(i, j)`:
the cell of the block containing `(i, j)` at offsets `(i % B, j % B)`. -/
def providerCell (p : Provider) (a : List String) (i j : Nat) : Element :=
  ((p (sliceChunk a (i / chunkSize * chunkSize))
      (sliceChunk a (j / chunkSize * chunkSize))).getD (i % chunkSize) []).getD
    (j % chunkSize) dEl

/-- Every provider cell covering a pair of the address list has status `"OK"`. -/
def AllOK (p : Provider) (a : List String) : Prop :=
  ∀ i, i < a.length → ∀ j, j < a.length → (providerCell p a i j).status = "OK"

/-- The response element of the block at `(iStart, jStart)` at row offset
`iOff` and column offset `jOff`. -/
def cellOf (p : Provider) (a : List String) (iStart jStart iOff jOff : Nat) : Element :=
  ((p (sliceChunk a iStart) (sliceChunk a jStart)).getD iOff []).getD jOff dEl

/-- The cost of a node path under matrix `m`: the sum of `m[x][y]` over the
consecutive pairs, exactly as accumulated by the route-walk loop of
`solve_vrp` (`route_time += distance_matrix[node][next_node]`). -/
def pathCost (m : Mat) : List Nat → Nat
  | [] => 0
  | [_] => 0
  | x :: y :: rest => mget m x y + pathCost m (y :: rest)

/-- An abstract feasible outcome of the OR-Tools search run by `solve_vrp`
for `V` vehicles and `J` jobs: per vehicle `v`, the sequence of job nodes it
visits between leaving and re-entering its depot node `v`, such that the `V`
sequences together visit each job node `V, …, V+J-1` exactly once.  This is
the feasibility guarantee of the routing model `solve_vrp` constructs (every
node mandatory and visited once, vehicle `v` starting and ending at node
`v`), abstracting only the search itself. -/
structure Solution (V J : Nat) where
  assign : List (List Nat)
  assign_length : assign.length = V
  assign_perm : assign.flatten.Perm (List.range' V J)

/-- The abstract OR-Tools search: from the matrix and the node counts it
either finds a feasible solution or fails.  `solve_vrp` is parameterised by
this collaborator. -/
abbrev Search := Mat → (V J : Nat) → Option (Solution V J)

/-- The per-vehicle result extraction of `solve_vrp` for vehicle `v`: the
walked node sequence is `v` followed by the vehicle's job nodes; the job
list keeps the nodes `≥ n_technicians` of the walk, and the route time sums
the matrix entries along the walk including the final arc back to the end
depot `v`. -/
def extractRoute (m : Mat) (V v : Nat) (jobs : List Nat) : List Nat × Nat :=
  let routeNodes := v :: jobs
  (routeNodes.filter (fun x => decide (V ≤ x)),
    pathCost m (routeNodes ++ [v]))

/-- `solve_vrp(distance_matrix, n_technicians, n_jobs)`: raise a
`RuntimeError` when the search finds no solution, otherwise extract one
`(job_nodes, route_time)` pair per vehicle `0, …, V-1`. -/
def solveVrp (m : Mat) (V J : Nat) (found : Option (Solution V J)) :
    Except String (List (List Nat × Nat)) :=
  match found with
  | none => .error "OR-Tools could not find a valid route solution."
  | some sol =>
    .ok ((List.range V).map (fun v => extractRoute m V v (sol.assign.getD v [])))

/-- Python's `round(s / 60)` for a non-negative integer number of seconds
`s`: rounding half to even.  (`s / 60` is within one double ulp of the real
quotient and ties `s = 60k + 30` are exactly representable, so the float
round agrees with exact half-even rounding for all realistic durations.) -/
def pround (s : Nat) : Nat :=
  if s % 60 < 30 then s / 60
  else if 30 < s % 60 then s / 60 + 1
  else if s / 60 % 2 = 0 then s / 60 else s / 60 + 1

/-- Python's `str.strip()`: drop leading and trailing whitespace.  (Defined
structurally over the character list so that concrete requests evaluate;
behaviourally identical to `String.trim`.) -/
def stripStr (s : String) : String :=
  ⟨((s.data.dropWhile Char.isWhitespace).reverse.dropWhile Char.isWhitespace).reverse⟩

/-- One entry of the `technicians` list of a request body.  A missing or
null field is modelled as `none`; `data.get(k, "") or ""` maps it to `""`. -/
structure TechIn where
  name : Option String
  start_location : Option String

/-- One entry of the `jobs` list of a request body. -/
structure JobIn where
  name : Option String
  location : Option String

/-- A parsed `/optimize` JSON body.  `technicians`/`jobs` hold
`data.get("technicians", [])` / `data.get("jobs", [])`; the single-vehicle
fields are carried to model requests of the shape
`{start_location, job_locations}`, which the handler never reads. -/
structure OptimizeRequest where
  technicians : List TechIn
  jobs : List JobIn
  start_location : Option String
  job_locations : Option (List String)

/-- A cleaned technician entry. -/
structure CTech where
  name : String
  start_location : String
  deriving DecidableEq

/-- A cleaned job entry. -/
structure CJob where
  name : String
  location : String
  deriving DecidableEq

/-- `str(x.get(k, "") or "").strip() or default`. -/
def defaultedName (s : Option String) (dflt : String) : String :=
  if stripStr (s.getD "") = "" then dflt else stripStr (s.getD "")

/-- The technician-cleaning loop of `/optimize`: default names are
`Technician {i+1}`, and an empty (after strip) start location aborts with a
400 error. -/
def cleanTechs : Nat → List TechIn → Except String (List CTech)
  | _, [] => .ok []
  | i, t :: ts =>
    if stripStr (t.start_location.getD "") = "" then
      .error ("Technician '" ++ defaultedName t.name ("Technician " ++ toString (i + 1)) ++
        "' is missing a start location.")
    else
      match cleanTechs (i + 1) ts with
      | .error e => .error e
      | .ok rest =>
        .ok ({ name := defaultedName t.name ("Technician " ++ toString (i + 1)),
               start_location := stripStr (t.start_location.getD "") } :: rest)

/-- The job-cleaning loop of `/optimize`: default names are `Job {i+1}`, and
an empty (after strip) location aborts with a 400 error. -/
def cleanJobs : Nat → List JobIn → Except String (List CJob)
  | _, [] => .ok []
  | i, j :: js =>
    if stripStr (j.location.getD "") = "" then
      .error ("Job '" ++ defaultedName j.name ("Job " ++ toString (i + 1)) ++
        "' is missing a location.")
    else
      match cleanJobs (i + 1) js with
      | .error e => .error e
      | .ok rest =>
        .ok ({ name := defaultedName j.name ("Job " ++ toString (i + 1)),
               location := stripStr (j.location.getD "") } :: rest)

/-- One stop of a returned assignment. -/
structure Stop where
  job_name : String
  location : String
  deriving DecidableEq

/-- One per-technician assignment of the `/optimize` response. -/
structure Assignment where
  technician : String
  start_location : String
  stops : List Stop
  drive_time_minutes : Nat
  deriving DecidableEq

/-- An `/optimize` HTTP response: either `{error: message}` with a status
code, or the success payload
`{assignments, total_drive_time_minutes, total_jobs}`. -/
inductive Response where
  | err (message : String) (code : Nat)
  | ok (assignments : List Assignment) (total_drive_time_minutes : Nat)
      (total_jobs : Nat)
  deriving DecidableEq

/-- The stop list built for one vehicle's job nodes: for each node,
`cleaned_jobs[node - n_technicians]` shaped as `{job_name, location}`. -/
def shapeStops (cjobs : List CJob) (V : Nat) (jobNodes : List Nat) : List Stop :=
  jobNodes.map (fun node =>
    let j := cjobs.getD (node - V) ⟨"", ""⟩
    { job_name := j.name, location := j.location })

/-- The response-shaping loop of `/optimize`
(`for vehicle_idx, (job_nodes, travel_seconds) in enumerate(vrp_results)`):
produces the assignment list and the accumulated `total_seconds`. -/
def shapeAssignments (ctechs : List CTech) (cjobs : List CJob)
    (results : List (List Nat × Nat)) : List Assignment × Nat :=
  (results.enum.map (fun pr =>
      let tech := ctechs.getD pr.1 ⟨"", ""⟩
      { technician := tech.name
        start_location := tech.start_location
        stops := shapeStops cjobs ctechs.length pr.2.1
        drive_time_minutes := pround pr.2.2 }),
    (results.map (·.2)).sum)

/-- The `/optimize` handler, parameterised by the travel-time provider and
the abstract OR-Tools search.  Returns the HTTP response, the list of
provider calls issued, and whether the solver was invoked. -/
def optimize (p : Provider) (search : Search) (body : Option OptimizeRequest) :
    Response × List Call × Bool :=
  match body with
  | none => (.err "Request body must be JSON." 400, [], false)
  | some data =>
    if data.technicians.isEmpty then
      (.err "At least one technician is required." 400, [], false)
    else if data.jobs.isEmpty then
      (.err "At least one job is required." 400, [], false)
    else if 10 < data.technicians.length then
      (.err "Maximum 10 technicians per request." 400, [], false)
    else if 24 < data.jobs.length then
      (.err "Maximum 24 jobs per request." 400, [], false)
    else
      match cleanTechs 0 data.technicians with
      | .error e => (.err e 400, [], false)
      | .ok ctechs =>
        match cleanJobs 0 data.jobs with
        | .error e => (.err e 400, [], false)
        | .ok cjobs =>
          let allAddresses :=
            ctechs.map (·.start_location) ++ cjobs.map (·.location)
          match buildDistanceMatrix p allAddresses with
          | (.error e, calls) => (.err e 422, calls, false)
          | (.ok dm, calls) =>
            match solveVrp dm ctechs.length cjobs.length
                (search dm ctechs.length cjobs.length) with
            | .error e => (.err e 500, calls, true)
            | .ok vrpResults =>
              let shaped := shapeAssignments ctechs cjobs vrpResults
              (.ok shaped.1 (pround shaped.2) cjobs.length, calls, true)

/-! ## Concrete instances used in examples, witnesses and counterexamples -/

/-- A provider defined pointwise by a per-pair element function. -/
def tableProvider (g : String → String → Element) : Provider :=
  fun o d => o.map (fun x => d.map (fun y => g x y))

/-- A provider answering every pair with status `"OK"` and duration `c`. -/
def constProvider (c : Nat) : Provider :=
  tableProvider (fun _ _ => ⟨"OK", c⟩)

/-- A provider answering 0 seconds on identical addresses, 100 otherwise. -/
def pairProvider : Provider :=
  tableProvider (fun x y => ⟨"OK", if x = y then 0 else 100⟩)

/-- A provider reporting a per-pair failure for the ordered pair
("B", "A") and 60 seconds for every other pair. -/
def badPairProvider : Provider :=
  tableProvider (fun x y =>
    if x = "B" ∧ y = "A" then ⟨"NOT_FOUND", 0⟩ else ⟨"OK", 60⟩)

/-- The feasible solution of the one-vehicle one-job instance. -/
def sol11 : Solution 1 1 := ⟨[[1]], by decide, by decide⟩

/-- A feasible solution for two vehicles and two jobs. -/
def sol22 : Solution 2 2 := ⟨[[2], [3]], by decide, by decide⟩

/-- The balanced feasible solution for three vehicles and three jobs. -/
def sol33 : Solution 3 3 := ⟨[[3], [4], [5]], by decide, by decide⟩

/-- A search returning `sol33` on 3-vehicle 3-job instances. -/
def search33 : Search := fun _ V J =>
  match V, J with
  | 3, 3 => some sol33
  | _, _ => none

/-- A search that never finds a solution. -/
def noSearch : Search := fun _ _ _ => none

/-- A concrete 4-node matrix (2 depots and 2 jobs). -/
def matW : Mat := [[0, 5, 7, 9], [5, 0, 11, 13], [7, 11, 0, 17], [9, 13, 17, 0]]

/-- Concrete cleaned technicians. -/
def ctW : List CTech := [⟨"T1", "A"⟩, ⟨"T2", "B"⟩]

/-- Concrete cleaned jobs. -/
def cjW : List CJob := [⟨"JobX", "C"⟩, ⟨"JobY", "E"⟩]

/-- The three-technician three-job request of the rounding counterexample. -/
def req33 : OptimizeRequest :=
  ⟨[⟨none, some "D1"⟩, ⟨none, some "D2"⟩, ⟨none, some "D3"⟩],
   [⟨none, some "A1"⟩, ⟨none, some "A2"⟩, ⟨none, some "A3"⟩], none, none⟩

/-- A request in the single-vehicle form: `start_location` and
`job_locations` only, no `technicians`/`jobs` lists. -/
def reqSingle : OptimizeRequest := ⟨[], [], some "A", some ["B"]⟩

/-- A request with 11 technicians, one over the cap. -/
def req11 : OptimizeRequest :=
  ⟨List.replicate 11 ⟨none, some "D"⟩, [⟨none, some "J"⟩], none, none⟩

/-- A one-technician one-job request whose matrix build hits the failing
pair ("B", "A") of `badPairProvider`. -/
def reqBA : OptimizeRequest :=
  ⟨[⟨some "Tech", some "A"⟩], [⟨some "Job", some "B"⟩], none, none⟩

/-! ## Matrix cell lemmas -/

theorem getD_row_mem {l : Mat} {i : Nat} (h : i < l.length) : l.getD i [] ∈ l := by
  rw [List.getD_eq_getElem?_getD, List.getElem?_eq_getElem h]
  simp

theorem length_getD_row {m : Mat} {n : Nat} (hd : Dims m n) {i : Nat} (hi : i < n) :
    (m.getD i []).length = n :=
  hd.2 _ (getD_row_mem (hd.1 ▸ hi))

theorem dims_zeroMat (n : Nat) : Dims (zeroMat n) n := by
  refine ⟨by simp [zeroMat], fun r hr => ?_⟩
  have : r = List.replicate n 0 := List.eq_of_mem_replicate (by simpa [zeroMat] using hr)
  simp [this]

theorem getD_set_self_row {m : Mat} {i : Nat} (hi : i < m.length) (r : List Nat) :
    (m.set i r).getD i [] = r := by
  rw [List.getD_eq_getElem?_getD, List.getElem?_set_self hi, Option.getD_some]

theorem getD_set_ne_row {m : Mat} {i i' : Nat} (h : i' ≠ i) (r : List Nat) :
    (m.set i r).getD i' [] = m.getD i' [] := by
  rw [List.getD_eq_getElem?_getD, List.getElem?_set_ne (Ne.symm h),
    ← List.getD_eq_getElem?_getD]

theorem getD_set_self_nat {l : List Nat} {j : Nat} (hj : j < l.length) (v : Nat) :
    (l.set j v).getD j 0 = v := by
  rw [List.getD_eq_getElem?_getD, List.getElem?_set_self hj, Option.getD_some]

theorem getD_set_ne_nat {l : List Nat} {j j' : Nat} (h : j' ≠ j) (v : Nat) :
    (l.set j v).getD j' 0 = l.getD j' 0 := by
  rw [List.getD_eq_getElem?_getD, List.getElem?_set_ne (Ne.symm h),
    ← List.getD_eq_getElem?_getD]

theorem dims_mset {m : Mat} {n : Nat} (hd : Dims m n) (i j v : Nat) :
    Dims (mset m i j v) n := by
  by_cases hi : i < m.length
  · refine ⟨by simp [mset, hd.1], fun r hr => ?_⟩
    rcases List.mem_or_eq_of_mem_set hr with h1 | h1
    · exact hd.2 r h1
    · subst h1
      simp only [List.length_set]
      exact length_getD_row hd (hd.1 ▸ hi)
  · rw [mset, List.set_eq_of_length_le (Nat.le_of_not_lt hi)]
    exact hd

theorem mget_mset_self {m : Mat} {n : Nat} (hd : Dims m n) {i j : Nat}
    (hi : i < n) (hj : j < n) (v : Nat) : mget (mset m i j v) i j = v := by
  have hi' : i < m.length := hd.1 ▸ hi
  have hj' : j < (m.getD i []).length := by rw [length_getD_row hd hi]; exact hj
  simp only [mget, mset]
  rw [getD_set_self_row hi', getD_set_self_nat hj']

theorem mget_mset_ne {m : Mat} {i j i' j' : Nat} (h : i' ≠ i ∨ j' ≠ j) (v : Nat) :
    mget (mset m i j v) i' j' = mget m i' j' := by
  by_cases hii : i' = i
  · subst hii
    have hj : j' ≠ j := h.resolve_left (by simp)
    by_cases hi : i' < m.length
    · simp only [mget, mset]
      rw [getD_set_self_row hi, getD_set_ne_nat hj]
    · rw [mset, List.set_eq_of_length_le (Nat.le_of_not_lt hi)]
  · simp only [mget, mset]
    rw [getD_set_ne_row hii]

/-! ## `processRow` lemmas -/

theorem processRow_cons_ok {e : Element} (he : e.status = "OK")
    (a : List String) (i jStart jOff : Nat) (es : List Element) (m : Mat) :
    processRow a i jStart jOff (e :: es) m =
      processRow a i jStart (jOff + 1) es (mset m i (jStart + jOff) e.duration) := by
  simp [processRow, he]

theorem processRow_cons_bad {e : Element} (he : e.status ≠ "OK")
    (a : List String) (i jStart jOff : Nat) (es : List Element) (m : Mat) :
    processRow a i jStart jOff (e :: es) m =
      .error (driveTimeErr (a.getD i "") (a.getD (jStart + jOff) "") e.status) := by
  simp [processRow, he]

theorem processRow_ok_of_allOK (a : List String) (i jStart : Nat) {es : List Element}
    (h : ∀ e ∈ es, e.status = "OK") (jOff : Nat) (m : Mat) :
    ∃ m1, processRow a i jStart jOff es m = .ok m1 := by
  induction es generalizing jOff m with
  | nil => exact ⟨m, rfl⟩
  | cons e es ih =>
    have he : e.status = "OK" := h e (List.mem_cons_self e es)
    rw [processRow_cons_ok he]
    exact ih (fun x hx => h x (List.mem_cons_of_mem e hx)) _ _

theorem processRow_dims {a : List String} {i jStart : Nat} {es : List Element}
    {jOff : Nat} {m m1 : Mat} {n : Nat}
    (h : processRow a i jStart jOff es m = .ok m1) (hd : Dims m n) : Dims m1 n := by
  induction es generalizing jOff m with
  | nil =>
    simp only [processRow, Except.ok.injEq] at h
    exact h ▸ hd
  | cons e es ih =>
    by_cases he : e.status = "OK"
    · rw [processRow_cons_ok he] at h
      exact ih h (dims_mset hd _ _ _)
    · rw [processRow_cons_bad he] at h
      simp at h

theorem processRow_frame {a : List String} {i jStart : Nat} {es : List Element}
    {jOff : Nat} {m m1 : Mat}
    (h : processRow a i jStart jOff es m = .ok m1) {i' j' : Nat}
    (hside : i' ≠ i ∨ j' < jStart + jOff ∨ jStart + jOff + es.length ≤ j') :
    mget m1 i' j' = mget m i' j' := by
  induction es generalizing jOff m with
  | nil =>
    simp only [processRow, Except.ok.injEq] at h
    rw [h]
  | cons e es ih =>
    by_cases he : e.status = "OK"
    · rw [processRow_cons_ok he] at h
      have hside' : i' ≠ i ∨ j' < jStart + (jOff + 1) ∨ jStart + (jOff + 1) + es.length ≤ j' := by
        rcases hside with h1 | h1 | h1
        · exact Or.inl h1
        · exact Or.inr (Or.inl (by omega))
        · exact Or.inr (Or.inr (by simp at h1 ⊢; omega))
      rw [ih h hside']
      refine mget_mset_ne ?_ _
      rcases hside with h1 | h1 | h1
      · exact Or.inl h1
      · exact Or.inr (by omega)
      · exact Or.inr (by simp at h1; omega)
    · rw [processRow_cons_bad he] at h
      simp at h

theorem processRow_written {a : List String} {i jStart : Nat} {es : List Element}
    {jOff : Nat} {m m1 : Mat} {n : Nat}
    (h : processRow a i jStart jOff es m = .ok m1) (hd : Dims m n) (hi : i < n)
    {k : Nat} (hk : k < es.length) (hj : jStart + jOff + k < n) :
    mget m1 i (jStart + jOff + k) = (es.getD k dEl).duration := by
  induction es generalizing jOff m k with
  | nil => exact absurd hk (Nat.not_lt_zero k)
  | cons e es ih =>
    by_cases he : e.status = "OK"
    · rw [processRow_cons_ok he] at h
      cases k with
      | zero =>
        have hfr : mget m1 i (jStart + jOff) =
            mget (mset m i (jStart + jOff) e.duration) i (jStart + jOff) :=
          processRow_frame h (Or.inr (Or.inl (by omega)))
        rw [Nat.add_zero] at hj ⊢
        rw [hfr, mget_mset_self hd hi hj]
        simp
      | succ k1 =>
        have hk1 : k1 < es.length := by simpa using hk
        have hidx : jStart + (jOff + 1) + k1 = jStart + jOff + (k1 + 1) := by omega
        have := ih h (dims_mset hd _ _ _) hk1 (by omega)
        rw [hidx] at this
        rw [this]
        simp
    · rw [processRow_cons_bad he] at h
      simp at h

theorem processRow_error (a : List String) (i jStart : Nat) {es : List Element}
    (hbad : ∃ e ∈ es, e.status ≠ "OK") (jOff : Nat) (m : Mat) :
    ∃ k, k < es.length ∧ (es.getD k dEl).status ≠ "OK" ∧
      processRow a i jStart jOff es m =
        .error (driveTimeErr (a.getD i "") (a.getD (jStart + jOff + k) "")
          ((es.getD k dEl).status)) := by
  induction es generalizing jOff m with
  | nil => simp at hbad
  | cons e es ih =>
    by_cases he : e.status = "OK"
    · have hbad' : ∃ x ∈ es, x.status ≠ "OK" := by
        rcases hbad with ⟨x, hx, hs⟩
        rcases List.mem_cons.1 hx with h1 | h1
        · exact absurd (h1 ▸ he) hs
        · exact ⟨x, h1, hs⟩
      rcases ih hbad' (jOff + 1) (mset m i (jStart + jOff) e.duration) with
        ⟨k, hk, hs, heq⟩
      refine ⟨k + 1, by simpa using hk, by simpa using hs, ?_⟩
      rw [processRow_cons_ok he, heq]
      have hidx : jStart + (jOff + 1) + k = jStart + jOff + (k + 1) := by omega
      rw [hidx]
      simp
    · exact ⟨0, by simp, by simpa using he, by rw [processRow_cons_bad he]; simp⟩

/-! ## `processRows` lemmas -/

theorem processRows_ok_of_allOK (a : List String) (iStart jStart : Nat)
    {rows : List (List Element)}
    (h : ∀ r ∈ rows, ∀ e ∈ r, e.status = "OK") (iOff : Nat) (m : Mat) :
    ∃ m1, processRows a iStart jStart iOff rows m = .ok m1 := by
  induction rows generalizing iOff m with
  | nil => exact ⟨m, rfl⟩
  | cons r rs ih =>
    rcases processRow_ok_of_allOK a (iStart + iOff) jStart
        (h r (List.mem_cons_self r rs)) 0 m with ⟨mA, hA⟩
    rcases ih (fun x hx => h x (List.mem_cons_of_mem r hx)) (iOff + 1) mA with ⟨m1, h1⟩
    refine ⟨m1, ?_⟩
    simp only [processRows, hA]
    exact h1

theorem processRows_dims {a : List String} {iStart jStart : Nat}
    {rows : List (List Element)} {iOff : Nat} {m m1 : Mat} {n : Nat}
    (h : processRows a iStart jStart iOff rows m = .ok m1) (hd : Dims m n) :
    Dims m1 n := by
  induction rows generalizing iOff m with
  | nil =>
    simp only [processRows, Except.ok.injEq] at h
    exact h ▸ hd
  | cons r rs ih =>
    simp only [processRows] at h
    cases hA : processRow a (iStart + iOff) jStart 0 r m with
    | error e => rw [hA] at h; simp at h
    | ok mA =>
      rw [hA] at h
      exact ih h (processRow_dims hA hd)

theorem processRows_frame {a : List String} {iStart jStart : Nat}
    {rows : List (List Element)} {dl : Nat} {iOff : Nat} {m m1 : Mat}
    (h : processRows a iStart jStart iOff rows m = .ok m1)
    (hlen : ∀ r ∈ rows, r.length = dl) {i' j' : Nat}
    (hside : i' < iStart + iOff ∨ iStart + iOff + rows.length ≤ i' ∨
      j' < jStart ∨ jStart + dl ≤ j') :
    mget m1 i' j' = mget m i' j' := by
  induction rows generalizing iOff m with
  | nil =>
    simp only [processRows, Except.ok.injEq] at h
    rw [h]
  | cons r rs ih =>
    simp only [processRows] at h
    cases hA : processRow a (iStart + iOff) jStart 0 r m with
    | error e => rw [hA] at h; simp at h
    | ok mA =>
      rw [hA] at h
      have hside' : i' < iStart + (iOff + 1) ∨ iStart + (iOff + 1) + rs.length ≤ i' ∨
          j' < jStart ∨ jStart + dl ≤ j' := by
        rcases hside with h1 | h1 | h1 | h1
        · exact Or.inl (by omega)
        · exact Or.inr (Or.inl (by simp at h1; omega))
        · exact Or.inr (Or.inr (Or.inl h1))
        · exact Or.inr (Or.inr (Or.inr h1))
      rw [ih h (fun x hx => hlen x (List.mem_cons_of_mem r hx)) hside']
      refine processRow_frame hA ?_
      have hr : r.length = dl := hlen r (List.mem_cons_self r rs)
      rcases hside with h1 | h1 | h1 | h1
      · exact Or.inl (by omega)
      · exact Or.inl (by simp at h1; omega)
      · exact Or.inr (Or.inl (by omega))
      · exact Or.inr (Or.inr (by omega))

theorem processRows_written {a : List String} {iStart jStart : Nat}
    {rows : List (List Element)} {dl : Nat} {iOff : Nat} {m m1 : Mat} {n : Nat}
    (h : processRows a iStart jStart iOff rows m = .ok m1) (hd : Dims m n)
    (hlen : ∀ r ∈ rows, r.length = dl) {ki kj : Nat}
    (hki : ki < rows.length) (hkj : kj < dl)
    (hin : iStart + iOff + ki < n) (hjn : jStart + kj < n) :
    mget m1 (iStart + iOff + ki) (jStart + kj) =
      ((rows.getD ki []).getD kj dEl).duration := by
  induction rows generalizing iOff m ki with
  | nil => exact absurd hki (Nat.not_lt_zero ki)
  | cons r rs ih =>
    simp only [processRows] at h
    cases hA : processRow a (iStart + iOff) jStart 0 r m with
    | error e => rw [hA] at h; simp at h
    | ok mA =>
      rw [hA] at h
      cases ki with
      | zero =>
        have hr : r.length = dl := hlen r (List.mem_cons_self r rs)
        have hfr : mget m1 (iStart + iOff) (jStart + kj) =
            mget mA (iStart + iOff) (jStart + kj) :=
          processRows_frame h (fun x hx => hlen x (List.mem_cons_of_mem r hx))
            (Or.inl (by omega))
        have hw := processRow_written hA hd (by omega) (k := kj) (hr ▸ hkj)
          (by omega)
        simp only [Nat.add_zero] at hw ⊢
        rw [hfr]
        simpa using hw
      | succ k1 =>
        have hk1 : k1 < rs.length := by simpa using hki
        have hidx : iStart + (iOff + 1) + k1 = iStart + iOff + (k1 + 1) := by omega
        have := ih h (processRow_dims hA hd)
          (fun x hx => hlen x (List.mem_cons_of_mem r hx)) hk1 (by omega)
        rw [hidx] at this
        rw [this]
        simp

theorem processRows_error (a : List String) (iStart jStart : Nat)
    {rows : List (List Element)}
    (hbad : ∃ r ∈ rows, ∃ e ∈ r, e.status ≠ "OK") (iOff : Nat) (m : Mat) :
    ∃ ki kj, ki < rows.length ∧ kj < (rows.getD ki []).length ∧
      ((rows.getD ki []).getD kj dEl).status ≠ "OK" ∧
      processRows a iStart jStart iOff rows m =
        .error (driveTimeErr (a.getD (iStart + iOff + ki) "") (a.getD (jStart + kj) "")
          (((rows.getD ki []).getD kj dEl).status)) := by
  induction rows generalizing iOff m with
  | nil => simp at hbad
  | cons r rs ih =>
    by_cases hr : ∃ e ∈ r, e.status ≠ "OK"
    · rcases processRow_error a (iStart + iOff) jStart hr 0 m with ⟨k, hk, hs, heq⟩
      refine ⟨0, k, by simp, by simpa using hk, by simpa using hs, ?_⟩
      simp only [processRows, heq]
      simp
    · have hallr : ∀ e ∈ r, e.status = "OK" := by
        intro e he
        by_contra hne
        exact hr ⟨e, he, hne⟩
      have hbad' : ∃ x ∈ rs, ∃ e ∈ x, e.status ≠ "OK" := by
        rcases hbad with ⟨x, hx, hp⟩
        rcases List.mem_cons.1 hx with h1 | h1
        · exact absurd hp (by subst h1; push_neg; intro e he; exact hallr e he)
        · exact ⟨x, h1, hp⟩
      rcases processRow_ok_of_allOK a (iStart + iOff) jStart hallr 0 m with ⟨mA, hA⟩
      rcases ih hbad' (iOff + 1) mA with ⟨ki, kj, hki, hkj, hs, heq⟩
      refine ⟨ki + 1, kj, by simpa using hki, by simpa using hkj, by simpa using hs, ?_⟩
      simp only [processRows, hA, heq]
      have hidx : iStart + (iOff + 1) + ki = iStart + iOff + (ki + 1) := by omega
      rw [hidx]
      simp

/-! ## Block decomposition helpers -/

theorem length_sliceChunk (a : List String) (s : Nat) :
    (sliceChunk a s).length = min chunkSize (a.length - s) := by
  simp [sliceChunk]

theorem blockStarts_mem {n s : Nat} (h : s ∈ blockStarts n) :
    s % chunkSize = 0 ∧ s < n := by
  simp only [blockStarts, List.mem_map, List.mem_range, numChunks, chunkSize] at h ⊢
  rcases h with ⟨k, hk, rfl⟩
  omega

theorem blockStarts_nodup (n : Nat) : (blockStarts n).Nodup := by
  refine List.Nodup.map ?_ (List.nodup_range _)
  intro x y hxy
  simpa [chunkSize] using hxy

theorem blockStarts_cover {n i : Nat} (h : i < n) :
    i / chunkSize * chunkSize ∈ blockStarts n := by
  simp only [blockStarts, List.mem_map, List.mem_range, numChunks, chunkSize] at *
  exact ⟨i / 10, by omega, rfl⟩

theorem chunk_disjoint {s1 s2 x : Nat} (h1 : s1 % chunkSize = 0) (h2 : s2 % chunkSize = 0)
    (hne : s1 ≠ s2) (hx1 : s1 ≤ x) (hx2 : x < s1 + chunkSize) :
    x < s2 ∨ s2 + chunkSize ≤ x := by
  simp only [chunkSize] at *
  omega

theorem providerCell_eq_cellOf {p : Provider} {a : List String} {iS jS ki kj : Nat}
    (hiS : iS % chunkSize = 0) (hjS : jS % chunkSize = 0)
    (hki : ki < chunkSize) (hkj : kj < chunkSize) :
    providerCell p a (iS + ki) (jS + kj) = cellOf p a iS jS ki kj := by
  have e1 : (iS + ki) / chunkSize * chunkSize = iS := by
    simp only [chunkSize] at *; omega
  have e2 : (jS + kj) / chunkSize * chunkSize = jS := by
    simp only [chunkSize] at *; omega
  have e3 : (iS + ki) % chunkSize = ki := by
    simp only [chunkSize] at *; omega
  have e4 : (jS + kj) % chunkSize = kj := by
    simp only [chunkSize] at *; omega
  rw [providerCell, e1, e2, e3, e4, cellOf]

theorem getD_eq_getElem_of_lt {α : Type _} (l : List α) (d : α) {k : Nat}
    (h : k < l.length) : l.getD k d = l[k] := by
  rw [List.getD_eq_getElem?_getD, List.getElem?_eq_getElem h, Option.getD_some]

theorem rows_length {p : Provider} (hws : WellShaped p) (o d : List String) :
    (p o d).length = o.length := (hws o d).1

theorem row_length {p : Provider} (hws : WellShaped p) (o d : List String)
    {r : List Element} (hr : r ∈ p o d) : r.length = d.length := (hws o d).2 r hr

/-! ## `processJBlocks` lemmas -/

theorem processJBlocks_ok {p : Provider} (hws : WellShaped p) (a : List String)
    (iStart : Nat) {js : List Nat} {m : Mat} (calls : List Call)
    (hd : Dims m a.length)
    (hjmul : ∀ jS ∈ js, jS % chunkSize = 0) (hjnd : js.Nodup)
    (hok : ∀ jS ∈ js, ∀ ki kj, ki < (sliceChunk a iStart).length →
      kj < (sliceChunk a jS).length → (cellOf p a iStart jS ki kj).status = "OK") :
    ∃ m1, processJBlocks p a iStart js m calls =
        (.ok m1, calls ++ js.map (fun jS => (sliceChunk a iStart, sliceChunk a jS))) ∧
      Dims m1 a.length ∧
      (∀ i' j', (i' < iStart ∨ iStart + (sliceChunk a iStart).length ≤ i' ∨
          ∀ jS ∈ js, j' < jS ∨ jS + (sliceChunk a jS).length ≤ j') →
        mget m1 i' j' = mget m i' j') ∧
      (∀ jS ∈ js, ∀ ki kj, ki < (sliceChunk a iStart).length →
        kj < (sliceChunk a jS).length →
        mget m1 (iStart + ki) (jS + kj) = (cellOf p a iStart jS ki kj).duration) := by
  induction js generalizing m calls with
  | nil =>
    refine ⟨m, by simp [processJBlocks], hd, fun i' j' _ => rfl, by simp⟩
  | cons jS js ih =>
    have hrl : (p (sliceChunk a iStart) (sliceChunk a jS)).length =
        (sliceChunk a iStart).length := rows_length hws _ _
    have hallOK : ∀ r ∈ p (sliceChunk a iStart) (sliceChunk a jS),
        ∀ e ∈ r, e.status = "OK" := by
      intro r hr e he
      rcases List.getElem_of_mem hr with ⟨ki, hki, rfl⟩
      rcases List.getElem_of_mem he with ⟨kj, hkj, rfl⟩
      have hki' : ki < (sliceChunk a iStart).length := by omega
      have hkj' : kj < (sliceChunk a jS).length := by
        rw [← row_length hws _ _ hr]; exact hkj
      have := hok jS (List.mem_cons_self jS js) ki kj hki' hkj'
      rw [cellOf] at this
      rw [show (p (sliceChunk a iStart) (sliceChunk a jS)).getD ki [] =
          (p (sliceChunk a iStart) (sliceChunk a jS))[ki] from
          getD_eq_getElem_of_lt _ _ hki] at this
      rw [getD_eq_getElem_of_lt _ _ hkj] at this
      exact this
    rcases processRows_ok_of_allOK a iStart jS hallOK 0 m with ⟨mA, hA⟩
    have hdA : Dims mA a.length := processRows_dims hA hd
    rcases ih (calls ++ [(sliceChunk a iStart, sliceChunk a jS)]) hdA
        (fun x hx => hjmul x (List.mem_cons_of_mem jS hx))
        (List.Nodup.of_cons hjnd)
        (fun x hx => hok x (List.mem_cons_of_mem jS hx)) with
      ⟨m1, heq, hd1, hframe, hwritten⟩
    have hrowlen : ∀ r ∈ p (sliceChunk a iStart) (sliceChunk a jS),
        r.length = (sliceChunk a jS).length := fun r hr => row_length hws _ _ hr
    refine ⟨m1, ?_, hd1, ?_, ?_⟩
    · simp only [processJBlocks, hA, heq]
      simp
    · intro i' j' hside
      have hsideTail : i' < iStart ∨ iStart + (sliceChunk a iStart).length ≤ i' ∨
          ∀ x ∈ js, j' < x ∨ x + (sliceChunk a x).length ≤ j' := by
        rcases hside with h1 | h1 | h1
        · exact Or.inl h1
        · exact Or.inr (Or.inl h1)
        · exact Or.inr (Or.inr (fun x hx => h1 x (List.mem_cons_of_mem jS hx)))
      rw [hframe i' j' hsideTail]
      refine processRows_frame hA hrowlen ?_
      rcases hside with h1 | h1 | h1
      · exact Or.inl (by omega)
      · exact Or.inr (Or.inl (by omega))
      · rcases h1 jS (List.mem_cons_self jS js) with h2 | h2
        · exact Or.inr (Or.inr (Or.inl h2))
        · exact Or.inr (Or.inr (Or.inr h2))
    · intro x hx ki kj hki hkj
      rcases List.mem_cons.1 hx with h1 | h1
      · subst h1
        have hin : iStart + ki < a.length := by
          have := length_sliceChunk a iStart
          omega
        have hjn : x + kj < a.length := by
          have := length_sliceChunk a x
          omega
        have hwr := processRows_written hA hd hrowlen
          (show ki < (p (sliceChunk a iStart) (sliceChunk a x)).length by
            rw [rows_length hws]
            exact hki)
          hkj (by omega) hjn
        simp only [Nat.add_zero] at hwr
        have hfr : mget m1 (iStart + ki) (x + kj) = mget mA (iStart + ki) (x + kj) := by
          refine hframe _ _ (Or.inr (Or.inr ?_))
          intro y hy
          have hy1 := hjmul y (List.mem_cons_of_mem x hy)
          have hx1 := hjmul x (List.mem_cons_self x js)
          have hne : y ≠ x := by
            intro he
            subst he
            exact (List.nodup_cons.1 hjnd).1 hy
          have hxkj : x ≤ x + kj := Nat.le_add_right x kj
          have hxkj2 : x + kj < x + chunkSize := by
            have := length_sliceChunk a x
            omega
          rcases chunk_disjoint hx1 hy1 (fun he => hne he.symm) hxkj hxkj2 with h2 | h2
          · exact Or.inl h2
          · right
            have := length_sliceChunk a y
            omega
        rw [hfr, cellOf]
        exact hwr
      · exact hwritten x h1 ki kj hki hkj

theorem cellOf_eq {p : Provider} {a : List String} {iStart jS ki kj : Nat}
    (hki : ki < (p (sliceChunk a iStart) (sliceChunk a jS)).length)
    (hkj : kj < (p (sliceChunk a iStart) (sliceChunk a jS))[ki].length) :
    cellOf p a iStart jS ki kj = (p (sliceChunk a iStart) (sliceChunk a jS))[ki][kj] := by
  rw [cellOf, show (p (sliceChunk a iStart) (sliceChunk a jS)).getD ki [] =
    (p (sliceChunk a iStart) (sliceChunk a jS))[ki] from
    getD_eq_getElem_of_lt _ _ hki, getD_eq_getElem_of_lt _ _ hkj]

theorem block_allOK {p : Provider} (hws : WellShaped p) (a : List String)
    (iStart jS : Nat)
    (h : ∀ ki kj, ki < (sliceChunk a iStart).length → kj < (sliceChunk a jS).length →
      (cellOf p a iStart jS ki kj).status = "OK") :
    ∀ r ∈ p (sliceChunk a iStart) (sliceChunk a jS), ∀ e ∈ r, e.status = "OK" := by
  intro r hr e he
  rcases List.getElem_of_mem hr with ⟨ki, hki, rfl⟩
  rcases List.getElem_of_mem he with ⟨kj, hkj, rfl⟩
  have hki' : ki < (sliceChunk a iStart).length := by
    rw [← rows_length hws (sliceChunk a iStart) (sliceChunk a jS)]; exact hki
  have hkj' : kj < (sliceChunk a jS).length := by
    rw [← row_length hws _ _ (List.getElem_mem hki)]; exact hkj
  rw [← cellOf_eq hki hkj]
  exact h ki kj hki' hkj'

theorem processJBlocks_error {p : Provider} (hws : WellShaped p) (a : List String)
    {iStart : Nat} (hiS : iStart % chunkSize = 0) {js : List Nat} (m : Mat)
    (calls : List Call) (hjmul : ∀ jS ∈ js, jS % chunkSize = 0)
    (hbad : ∃ jS ∈ js, ∃ ki kj, ki < (sliceChunk a iStart).length ∧
      kj < (sliceChunk a jS).length ∧ (cellOf p a iStart jS ki kj).status ≠ "OK") :
    ∃ e calls1, processJBlocks p a iStart js m calls = (.error e, calls1) ∧
      ∃ i j, i < a.length ∧ j < a.length ∧ (providerCell p a i j).status ≠ "OK" ∧
        e = driveTimeErr (a.getD i "") (a.getD j "") ((providerCell p a i j).status) := by
  induction js generalizing m calls with
  | nil => simp at hbad
  | cons jS js ih =>
    have hjSm : jS % chunkSize = 0 := hjmul jS (List.mem_cons_self jS js)
    by_cases hb : ∃ ki kj, ki < (sliceChunk a iStart).length ∧
        kj < (sliceChunk a jS).length ∧ (cellOf p a iStart jS ki kj).status ≠ "OK"
    · rcases hb with ⟨ki, kj, hki, hkj, hs⟩
      have hki2 : ki < (p (sliceChunk a iStart) (sliceChunk a jS)).length := by
        rw [rows_length hws]; exact hki
      have hkj2 : kj < (p (sliceChunk a iStart) (sliceChunk a jS))[ki].length := by
        rw [row_length hws _ _ (List.getElem_mem hki2)]; exact hkj
      have hbadrows : ∃ r ∈ p (sliceChunk a iStart) (sliceChunk a jS),
          ∃ e ∈ r, e.status ≠ "OK" := by
        refine ⟨(p (sliceChunk a iStart) (sliceChunk a jS))[ki], List.getElem_mem hki2,
          (p (sliceChunk a iStart) (sliceChunk a jS))[ki][kj], List.getElem_mem hkj2, ?_⟩
        rw [← cellOf_eq hki2 hkj2]
        exact hs
      rcases processRows_error a iStart jS hbadrows 0 m with ⟨ki1, kj1, hki1, hkj1, hs1, heq⟩
      have hki1' : ki1 < (sliceChunk a iStart).length := by
        rw [← rows_length hws (sliceChunk a iStart) (sliceChunk a jS)]; exact hki1
      have hrowD : (p (sliceChunk a iStart) (sliceChunk a jS)).getD ki1 [] =
          (p (sliceChunk a iStart) (sliceChunk a jS))[ki1] :=
        getD_eq_getElem_of_lt _ _ hki1
      have hkj1' : kj1 < (sliceChunk a jS).length := by
        rw [← row_length hws _ _ (List.getElem_mem hki1), ← hrowD]; exact hkj1
      have hcell : cellOf p a iStart jS ki1 kj1 =
          ((p (sliceChunk a iStart) (sliceChunk a jS)).getD ki1 []).getD kj1 dEl := rfl
      have hi : iStart + ki1 < a.length := by
        have := length_sliceChunk a iStart
        omega
      have hj : jS + kj1 < a.length := by
        have := length_sliceChunk a jS
        omega
      have hpc : providerCell p a (iStart + ki1) (jS + kj1) = cellOf p a iStart jS ki1 kj1 :=
        providerCell_eq_cellOf hiS hjSm
          (by have := length_sliceChunk a iStart; omega)
          (by have := length_sliceChunk a jS; omega)
      refine ⟨driveTimeErr (a.getD (iStart + ki1) "") (a.getD (jS + kj1) "")
          ((providerCell p a (iStart + ki1) (jS + kj1)).status),
        calls ++ [(sliceChunk a iStart, sliceChunk a jS)], ?_,
        iStart + ki1, jS + kj1, hi, hj, ?_, rfl⟩
      · rw [hpc, hcell]
        simp only [Nat.add_zero] at heq
        simp only [processJBlocks, heq]
      · rw [hpc, hcell]
        exact hs1
    · have hallOK : ∀ ki kj, ki < (sliceChunk a iStart).length →
          kj < (sliceChunk a jS).length → (cellOf p a iStart jS ki kj).status = "OK" := by
        push_neg at hb
        exact hb
      rcases processRows_ok_of_allOK a iStart jS (block_allOK hws a iStart jS hallOK) 0 m
        with ⟨mA, hA⟩
      have hbad' : ∃ x ∈ js, ∃ ki kj, ki < (sliceChunk a iStart).length ∧
          kj < (sliceChunk a x).length ∧ (cellOf p a iStart x ki kj).status ≠ "OK" := by
        rcases hbad with ⟨x, hx, ki, kj, h1, h2, h3⟩
        rcases List.mem_cons.1 hx with he | he
        · subst he
          exact absurd (hallOK ki kj h1 h2) h3
        · exact ⟨x, he, ki, kj, h1, h2, h3⟩
      rcases ih mA (calls ++ [(sliceChunk a iStart, sliceChunk a jS)])
        (fun x hx => hjmul x (List.mem_cons_of_mem jS hx)) hbad' with
        ⟨e, calls1, heq, hwit⟩
      refine ⟨e, calls1, ?_, hwit⟩
      simp only [processJBlocks, hA, heq]

/-! ## `processIBlocks` lemmas -/

theorem processIBlocks_ok {p : Provider} (hws : WellShaped p) (a : List String)
    {is : List Nat} {m : Mat} (calls : List Call)
    (hd : Dims m a.length)
    (himul : ∀ iS ∈ is, iS % chunkSize = 0) (hind : is.Nodup)
    (hok : ∀ iS ∈ is, ∀ jS ∈ blockStarts a.length, ∀ ki kj,
      ki < (sliceChunk a iS).length → kj < (sliceChunk a jS).length →
      (cellOf p a iS jS ki kj).status = "OK") :
    ∃ m1, processIBlocks p a is m calls =
        (.ok m1, calls ++ is.flatMap (fun iS =>
          (blockStarts a.length).map fun jS => (sliceChunk a iS, sliceChunk a jS))) ∧
      Dims m1 a.length ∧
      (∀ i' j', (∀ iS ∈ is, i' < iS ∨ iS + (sliceChunk a iS).length ≤ i') →
        mget m1 i' j' = mget m i' j') ∧
      (∀ iS ∈ is, ∀ ki, ki < (sliceChunk a iS).length → ∀ j', j' < a.length →
        mget m1 (iS + ki) j' = (providerCell p a (iS + ki) j').duration) := by
  induction is generalizing m calls with
  | nil =>
    refine ⟨m, by simp [processIBlocks], hd, fun i' j' _ => rfl, by simp⟩
  | cons iS is ih =>
    have hiSm : iS % chunkSize = 0 := himul iS (List.mem_cons_self iS is)
    rcases processJBlocks_ok hws a iS calls hd
        (fun x hx => (blockStarts_mem hx).1) (blockStarts_nodup _)
        (hok iS (List.mem_cons_self iS is)) with ⟨mB, heqJ, hdB, hframeJ, hwrittenJ⟩
    rcases ih (calls ++ (blockStarts a.length).map
          (fun jS => (sliceChunk a iS, sliceChunk a jS))) hdB
        (fun x hx => himul x (List.mem_cons_of_mem iS hx))
        (List.Nodup.of_cons hind)
        (fun x hx => hok x (List.mem_cons_of_mem iS hx)) with
      ⟨m1, heqI, hd1, hframeI, hwrittenI⟩
    refine ⟨m1, ?_, hd1, ?_, ?_⟩
    · simp only [processIBlocks, heqJ, heqI]
      simp [List.append_assoc]
    · intro i' j' hside
      rw [hframeI i' j' (fun x hx => hside x (List.mem_cons_of_mem iS hx))]
      refine hframeJ i' j' ?_
      rcases hside iS (List.mem_cons_self iS is) with h1 | h1
      · exact Or.inl h1
      · exact Or.inr (Or.inl h1)
    · intro x hx ki hki j' hj'
      rcases List.mem_cons.1 hx with h1 | h1
      · subst h1
        have hkiB : ki < chunkSize := by
          have := length_sliceChunk a x
          omega
        have hxn : x + ki < a.length := by
          have := length_sliceChunk a x
          omega
        have hjS : j' / chunkSize * chunkSize ∈ blockStarts a.length :=
          blockStarts_cover hj'
        have hjSm : j' / chunkSize * chunkSize % chunkSize = 0 :=
          (blockStarts_mem hjS).1
        have hkjB : j' % chunkSize < chunkSize := by
          simp only [chunkSize]
          omega
        have hkj : j' % chunkSize < (sliceChunk a (j' / chunkSize * chunkSize)).length := by
          have := length_sliceChunk a (j' / chunkSize * chunkSize)
          simp only [chunkSize] at *
          omega
        have hw := hwrittenJ (j' / chunkSize * chunkSize) hjS ki (j' % chunkSize) hki hkj
        have hfr : mget m1 (x + ki) (j' / chunkSize * chunkSize + j' % chunkSize) =
            mget mB (x + ki) (j' / chunkSize * chunkSize + j' % chunkSize) := by
          refine hframeI _ _ ?_
          intro y hy
          have hy1 := himul y (List.mem_cons_of_mem x hy)
          have hne : y ≠ x := by
            intro he
            subst he
            exact (List.nodup_cons.1 hind).1 hy
          have hx1 : x ≤ x + ki := Nat.le_add_right x ki
          have hx2 : x + ki < x + chunkSize := by omega
          rcases chunk_disjoint hiSm hy1 (fun he => hne he.symm) hx1 hx2 with h2 | h2
          · exact Or.inl h2
          · right
            have := length_sliceChunk a y
            omega
        have hj'eq : j' / chunkSize * chunkSize + j' % chunkSize = j' := by
          simp only [chunkSize]
          omega
        have hpc : providerCell p a (x + ki)
            (j' / chunkSize * chunkSize + j' % chunkSize) =
            cellOf p a x (j' / chunkSize * chunkSize) ki (j' % chunkSize) :=
          providerCell_eq_cellOf hiSm hjSm hkiB hkjB
        rw [← hj'eq, hfr, hw, ← hpc]
      · exact hwrittenI x h1 ki hki j' hj'

theorem processIBlocks_error {p : Provider} (hws : WellShaped p) (a : List String)
    {is : List Nat} {m : Mat} (calls : List Call) (hd : Dims m a.length)
    (himul : ∀ iS ∈ is, iS % chunkSize = 0)
    (hbad : ∃ iS ∈ is, ∃ jS ∈ blockStarts a.length, ∃ ki kj,
      ki < (sliceChunk a iS).length ∧ kj < (sliceChunk a jS).length ∧
      (cellOf p a iS jS ki kj).status ≠ "OK") :
    ∃ e calls1, processIBlocks p a is m calls = (.error e, calls1) ∧
      ∃ i j, i < a.length ∧ j < a.length ∧ (providerCell p a i j).status ≠ "OK" ∧
        e = driveTimeErr (a.getD i "") (a.getD j "") ((providerCell p a i j).status) := by
  induction is generalizing m calls with
  | nil => simp at hbad
  | cons iS is ih =>
    have hiSm : iS % chunkSize = 0 := himul iS (List.mem_cons_self iS is)
    by_cases hb : ∃ jS ∈ blockStarts a.length, ∃ ki kj,
        ki < (sliceChunk a iS).length ∧ kj < (sliceChunk a jS).length ∧
        (cellOf p a iS jS ki kj).status ≠ "OK"
    · rcases processJBlocks_error hws a hiSm m calls
        (fun x hx => (blockStarts_mem hx).1) hb with ⟨e, calls1, heqJ, hwit⟩
      refine ⟨e, calls1, ?_, hwit⟩
      simp only [processIBlocks, heqJ]
    · have hallOK : ∀ jS ∈ blockStarts a.length, ∀ ki kj,
          ki < (sliceChunk a iS).length → kj < (sliceChunk a jS).length →
          (cellOf p a iS jS ki kj).status = "OK" := by
        push_neg at hb
        exact hb
      rcases processJBlocks_ok hws a iS calls hd
          (fun x hx => (blockStarts_mem hx).1) (blockStarts_nodup _) hallOK with
        ⟨mB, heqJ, hdB, _, _⟩
      have hbad' : ∃ x ∈ is, ∃ jS ∈ blockStarts a.length, ∃ ki kj,
          ki < (sliceChunk a x).length ∧ kj < (sliceChunk a jS).length ∧
          (cellOf p a x jS ki kj).status ≠ "OK" := by
        rcases hbad with ⟨x, hx, jS, hjS, ki, kj, h1, h2, h3⟩
        rcases List.mem_cons.1 hx with he | he
        · subst he
          exact absurd (hallOK jS hjS ki kj h1 h2) h3
        · exact ⟨x, he, jS, hjS, ki, kj, h1, h2, h3⟩
      rcases ih (calls ++ (blockStarts a.length).map
            (fun jS => (sliceChunk a iS, sliceChunk a jS))) hdB
          (fun x hx => himul x (List.mem_cons_of_mem iS hx)) hbad' with
        ⟨e, calls1, heqI, hwit⟩
      refine ⟨e, calls1, ?_, hwit⟩
      simp only [processIBlocks, heqJ, heqI]

/-! ## `buildDistanceMatrix` characterisation -/

theorem buildDistanceMatrix_ok {p : Provider} (hws : WellShaped p) (a : List String)
    (hok : AllOK p a) :
    ∃ m, (buildDistanceMatrix p a).1 = .ok m ∧ Dims m a.length ∧
      (∀ i j, i < a.length → j < a.length →
        mget m i j = (providerCell p a i j).duration) ∧
      (buildDistanceMatrix p a).2 = (blockStarts a.length).flatMap (fun iS =>
        (blockStarts a.length).map fun jS => (sliceChunk a iS, sliceChunk a jS)) := by
  have hcells : ∀ iS ∈ blockStarts a.length, ∀ jS ∈ blockStarts a.length, ∀ ki kj,
      ki < (sliceChunk a iS).length → kj < (sliceChunk a jS).length →
      (cellOf p a iS jS ki kj).status = "OK" := by
    intro iS hiS jS hjS ki kj hki hkj
    have hiSp := blockStarts_mem hiS
    have hjSp := blockStarts_mem hjS
    have h1 := length_sliceChunk a iS
    have h2 := length_sliceChunk a jS
    rw [← providerCell_eq_cellOf hiSp.1 hjSp.1 (by omega) (by omega)]
    exact hok (iS + ki) (by omega) (jS + kj) (by omega)
  rcases processIBlocks_ok hws a [] (dims_zeroMat a.length)
      (fun x hx => (blockStarts_mem hx).1) (blockStarts_nodup _) hcells with
    ⟨m1, heq, hd1, _, hwritten⟩
  refine ⟨m1, ?_, hd1, ?_, ?_⟩
  · rw [buildDistanceMatrix, heq]
  · intro i j hi hj
    have hiS : i / chunkSize * chunkSize ∈ blockStarts a.length := blockStarts_cover hi
    have hiSm := (blockStarts_mem hiS).1
    have h1 := length_sliceChunk a (i / chunkSize * chunkSize)
    have hki : i % chunkSize < (sliceChunk a (i / chunkSize * chunkSize)).length := by
      simp only [chunkSize] at *
      omega
    have hw := hwritten (i / chunkSize * chunkSize) hiS (i % chunkSize) hki j hj
    have hieq : i / chunkSize * chunkSize + i % chunkSize = i := by
      simp only [chunkSize]
      omega
    rw [hieq] at hw
    exact hw
  · rw [buildDistanceMatrix, heq]
    simp

theorem buildDistanceMatrix_error {p : Provider} (hws : WellShaped p) (a : List String)
    (hbad : ¬ AllOK p a) :
    ∃ e calls, buildDistanceMatrix p a = (.error e, calls) ∧
      ∃ i j, i < a.length ∧ j < a.length ∧ (providerCell p a i j).status ≠ "OK" ∧
        e = driveTimeErr (a.getD i "") (a.getD j "") ((providerCell p a i j).status) := by
  simp only [AllOK] at hbad
  push_neg at hbad
  rcases hbad with ⟨i, hi, j, hj, hs⟩
  have hiS : i / chunkSize * chunkSize ∈ blockStarts a.length := blockStarts_cover hi
  have hjS : j / chunkSize * chunkSize ∈ blockStarts a.length := blockStarts_cover hj
  have hiSm := (blockStarts_mem hiS).1
  have hjSm := (blockStarts_mem hjS).1
  have h1 := length_sliceChunk a (i / chunkSize * chunkSize)
  have h2 := length_sliceChunk a (j / chunkSize * chunkSize)
  have hki : i % chunkSize < (sliceChunk a (i / chunkSize * chunkSize)).length := by
    simp only [chunkSize] at *
    omega
  have hkj : j % chunkSize < (sliceChunk a (j / chunkSize * chunkSize)).length := by
    simp only [chunkSize] at *
    omega
  have hieq : i / chunkSize * chunkSize + i % chunkSize = i := by
    simp only [chunkSize]
    omega
  have hjeq : j / chunkSize * chunkSize + j % chunkSize = j := by
    simp only [chunkSize]
    omega
  have hcell : cellOf p a (i / chunkSize * chunkSize) (j / chunkSize * chunkSize)
      (i % chunkSize) (j % chunkSize) = providerCell p a i j := by
    rw [← providerCell_eq_cellOf hiSm hjSm (by simp only [chunkSize]; omega)
      (by simp only [chunkSize]; omega), hieq, hjeq]
  have hbadblocks : ∃ iS ∈ blockStarts a.length, ∃ jS ∈ blockStarts a.length,
      ∃ ki kj, ki < (sliceChunk a iS).length ∧ kj < (sliceChunk a jS).length ∧
      (cellOf p a iS jS ki kj).status ≠ "OK" :=
    ⟨_, hiS, _, hjS, i % chunkSize, j % chunkSize, hki, hkj, by rw [hcell]; exact hs⟩
  rcases processIBlocks_error hws a [] (dims_zeroMat a.length)
      (fun x hx => (blockStarts_mem hx).1) hbadblocks with ⟨e, calls1, heq, hwit⟩
  exact ⟨e, calls1, by rw [buildDistanceMatrix, heq], hwit⟩

/-! ## Solver lemmas -/

theorem map_getD_range {α : Type _} (d : α) (l : List α) :
    (List.range l.length).map (fun v => l.getD v d) = l := by
  induction l with
  | nil => simp
  | cons x xs ih =>
    rw [List.length_cons, List.range_succ_eq_map, List.map_cons, List.map_map,
      List.getD_cons_zero]
    exact congrArg (List.cons x) ih

theorem solution_node_bounds {V J : Nat} (sol : Solution V J) {l : List Nat}
    (hl : l ∈ sol.assign) {x : Nat} (hx : x ∈ l) : V ≤ x ∧ x < V + J := by
  have h1 : x ∈ sol.assign.flatten := List.mem_flatten.2 ⟨l, hl, hx⟩
  have h2 := (sol.assign_perm.mem_iff).1 h1
  exact List.mem_range'_1.1 h2

theorem solution_row_bounds {V J : Nat} (sol : Solution V J) {v : Nat} (hv : v < V)
    {x : Nat} (hx : x ∈ sol.assign.getD v []) : V ≤ x ∧ x < V + J :=
  solution_node_bounds sol (getD_row_mem (sol.assign_length.symm ▸ hv)) hx

theorem filter_route {V v : Nat} (hv : v < V) {jobs : List Nat}
    (hjobs : ∀ x ∈ jobs, V ≤ x) :
    (v :: jobs).filter (fun x => decide (V ≤ x)) = jobs := by
  have h1 : decide (V ≤ v) = false := by simp; omega
  simp only [List.filter_cons, h1, Bool.false_eq_true, if_false]
  exact List.filter_eq_self.2 (fun x hx => by simpa using hjobs x hx)

theorem solveVrp_eq {m : Mat} {V J : Nat} (sol : Solution V J) :
    solveVrp m V J (some sol) =
      .ok ((List.range V).map (fun v =>
        (sol.assign.getD v [], pathCost m ((v :: sol.assign.getD v []) ++ [v])))) := by
  rw [solveVrp]
  congr 1
  refine List.map_congr_left ?_
  intro v hv
  have hv' : v < V := List.mem_range.1 hv
  simp only [extractRoute]
  rw [filter_route hv' (fun x hx => (solution_row_bounds sol hv' hx).1)]

theorem solveVrp_map_fst {m : Mat} {V J : Nat} (sol : Solution V J) {res : List (List Nat × Nat)}
    (h : solveVrp m V J (some sol) = .ok res) :
    res.map Prod.fst = sol.assign := by
  rw [solveVrp_eq sol, Except.ok.injEq] at h
  rw [← h, List.map_map]
  have h2 := map_getD_range ([] : List Nat) sol.assign
  rw [sol.assign_length] at h2
  exact h2

theorem solveVrp_length {m : Mat} {V J : Nat} (sol : Solution V J) {res : List (List Nat × Nat)}
    (h : solveVrp m V J (some sol) = .ok res) : res.length = V := by
  rw [solveVrp_eq sol, Except.ok.injEq] at h
  rw [← h]
  simp

theorem enumFrom_map_snd {α β : Type _} (f : α → β) : ∀ (k : Nat) (l : List α),
    (List.enumFrom k l).map (fun pr => f pr.2) = l.map f
  | _, [] => rfl
  | k, x :: xs => by
    simp only [List.enumFrom, List.map_cons]
    rw [enumFrom_map_snd f (k + 1) xs]

theorem enum_map_snd_comp {α β : Type _} (f : α → β) (l : List α) :
    l.enum.map (fun pr => f pr.2) = l.map f :=
  enumFrom_map_snd f 0 l

/-! ## Rounding lemmas -/

theorem pround_close (s : Nat) : ((60 * pround s : Int) - s).natAbs ≤ 30 := by
  have hq := Nat.div_add_mod s 60
  have hr : s % 60 < 60 := Nat.mod_lt s (by omega)
  simp only [pround]
  split_ifs with h1 h2 h3 <;> push_cast <;> omega

theorem sum_pround_close (ss : List Nat) :
    ((60 * ((ss.map pround).sum) : Int) - ss.sum).natAbs ≤ 30 * ss.length := by
  induction ss with
  | nil => simp
  | cons s ss ih =>
    simp only [List.map_cons, List.sum_cons, List.length_cons]
    have h1 := pround_close s
    push_cast at ih h1 ⊢
    omega

theorem total_minutes_close (ss : List Nat) :
    2 * ((pround ss.sum : Int) - ((ss.map pround).sum : Nat)).natAbs ≤ ss.length + 1 := by
  have h1 := pround_close ss.sum
  have h2 := sum_pround_close ss
  omega

/-! ## Orchestrator helper lemmas -/

theorem tableProvider_wellShaped (g : String → String → Element) :
    WellShaped (tableProvider g) := by
  intro o d
  constructor
  · simp [tableProvider]
  · intro r hr
    simp only [tableProvider, List.mem_map] at hr
    rcases hr with ⟨x, _, rfl⟩
    simp

theorem getD_map_range {α : Type _} (f : Nat → α) (d : α) {v n : Nat} (hv : v < n) :
    ((List.range n).map f).getD v d = f v := by
  rw [getD_eq_getElem_of_lt _ _ (by simpa using hv)]
  simp

theorem cleanTechs_error_of_empty {ts : List TechIn}
    (h : ∃ t ∈ ts, stripStr (t.start_location.getD "") = "") (i : Nat) :
    ∃ e, cleanTechs i ts = .error e := by
  induction ts generalizing i with
  | nil => simp at h
  | cons t ts ih =>
    by_cases ht : stripStr (t.start_location.getD "") = ""
    · refine ⟨"Technician '" ++ defaultedName t.name ("Technician " ++ toString (i + 1)) ++
        "' is missing a start location.", ?_⟩
      simp only [cleanTechs]
      rw [if_pos ht]
    · have h2 : ∃ x ∈ ts, stripStr (x.start_location.getD "") = "" := by
        rcases h with ⟨x, hx, hs⟩
        rcases List.mem_cons.1 hx with h1 | h1
        · exact absurd (h1 ▸ hs) ht
        · exact ⟨x, h1, hs⟩
      rcases ih h2 (i + 1) with ⟨e, he⟩
      refine ⟨e, ?_⟩
      simp only [cleanTechs]
      rw [if_neg ht, he]

theorem cleanJobs_error_of_empty {js : List JobIn}
    (h : ∃ j ∈ js, stripStr (j.location.getD "") = "") (i : Nat) :
    ∃ e, cleanJobs i js = .error e := by
  induction js generalizing i with
  | nil => simp at h
  | cons j js ih =>
    by_cases hj : stripStr (j.location.getD "") = ""
    · refine ⟨"Job '" ++ defaultedName j.name ("Job " ++ toString (i + 1)) ++
        "' is missing a location.", ?_⟩
      simp only [cleanJobs]
      rw [if_pos hj]
    · have h2 : ∃ x ∈ js, stripStr (x.location.getD "") = "" := by
        rcases h with ⟨x, hx, hs⟩
        rcases List.mem_cons.1 hx with h1 | h1
        · exact absurd (h1 ▸ hs) hj
        · exact ⟨x, h1, hs⟩
      rcases ih h2 (i + 1) with ⟨e, he⟩
      refine ⟨e, ?_⟩
      simp only [cleanJobs]
      rw [if_neg hj, he]

/-! ## Claim theorems -/

/-- C1: a successful solve returns exactly one (job-nodes, travel-time) pair
per vehicle `0..V-1` — vehicles with zero stops included — and the job nodes
across all routes are a permutation of `V..V+J-1`, each appearing exactly
once; consequently the `/optimize` assignment loop produces exactly `V`
assignments whose stop counts sum to the number of jobs `J`. -/
theorem C1_partition {m : Mat} {V J : Nat} (sol : Solution V J)
    {res : List (List Nat × Nat)} (h : solveVrp m V J (some sol) = .ok res)
    (ctechs : List CTech) (cjobs : List CJob) :
    res.length = V ∧
    (res.map Prod.fst).flatten.Perm (List.range' V J) ∧
    (shapeAssignments ctechs cjobs res).1.length = V ∧
    ((shapeAssignments ctechs cjobs res).1.map (fun x => x.stops.length)).sum = J := by
  have hlen := solveVrp_length sol h
  have hfst := solveVrp_map_fst sol h
  refine ⟨hlen, hfst ▸ sol.assign_perm, ?_, ?_⟩
  · simp [shapeAssignments, hlen]
  · have h1 : ((shapeAssignments ctechs cjobs res).1.map (fun x => x.stops.length)) =
        res.map (fun r => (shapeStops cjobs ctechs.length r.1).length) := by
      simp only [shapeAssignments]
      rw [List.map_map]
      exact enum_map_snd_comp (fun r => (shapeStops cjobs ctechs.length r.1).length) res
    have h2 : res.map (fun r => (shapeStops cjobs ctechs.length r.1).length) =
        (res.map Prod.fst).map List.length := by
      rw [List.map_map]
      exact List.map_congr_left (fun r _ => by simp [shapeStops])
    rw [h1, h2]
    calc ((res.map Prod.fst).map List.length).sum
        = (res.map Prod.fst).flatten.length := (List.length_flatten _).symm
      _ = (List.range' V J).length := (hfst ▸ sol.assign_perm).length_eq
      _ = J := by simp

/-- C1 witness: the two-vehicle two-job instance `matW` with solution
`sol22`. -/
theorem C1_partition_witness :
    ([([2], 14), ([3], 26)] : List (List Nat × Nat)).length = 2 ∧
    (([([2], 14), ([3], 26)] : List (List Nat × Nat)).map Prod.fst).flatten.Perm
      (List.range' 2 2) ∧
    (shapeAssignments ctW cjW [([2], 14), ([3], 26)]).1.length = 2 ∧
    ((shapeAssignments ctW cjW [([2], 14), ([3], 26)]).1.map
      (fun x => x.stops.length)).sum = 2 :=
  C1_partition sol22 (show solveVrp matW 2 2 (some sol22) =
    .ok [([2], 14), ([3], 26)] from rfl) ctW cjW

/-- C4: in a successful solve, vehicle v's returned pair is exactly its
job-node visit sequence (the walked depot-led sequence with the depot node
stripped; every entry is a job node in `[V, V+J)`) together with the travel
time summed along the full closed tour v → jobs → v, the final return arc to
the depot included. -/
theorem C4_route_shape {m : Mat} {V J : Nat} (sol : Solution V J)
    {res : List (List Nat × Nat)} (h : solveVrp m V J (some sol) = .ok res)
    {v : Nat} (hv : v < V) :
    res.getD v ([], 0) =
      (sol.assign.getD v [], pathCost m ((v :: sol.assign.getD v []) ++ [v])) ∧
    ∀ x ∈ sol.assign.getD v [], V ≤ x ∧ x < V + J := by
  constructor
  · rw [solveVrp_eq sol, Except.ok.injEq] at h
    rw [← h, getD_map_range _ _ hv]
  · exact fun x hx => solution_row_bounds sol hv hx

/-- C4 witness: vehicle 1 of the `matW`/`sol22` instance: route [3], cost
13 + 13 = 26 including the return arc. -/
theorem C4_route_shape_witness :
    (([([2], 14), ([3], 26)] : List (List Nat × Nat)).getD 1 ([], 0) =
      (sol22.assign.getD 1 [], pathCost matW ((1 :: sol22.assign.getD 1 []) ++ [1]))) ∧
    (2 ≤ 3 ∧ 3 < 2 + 2) :=
  ⟨(C4_route_shape sol22 (show solveVrp matW 2 2 (some sol22) =
      .ok [([2], 14), ([3], 26)] from rfl) (by omega : (1 : Nat) < 2)).1,
   (C4_route_shape sol22 (show solveVrp matW 2 2 (some sol22) =
      .ok [([2], 14), ([3], 26)] from rfl) (by omega : (1 : Nat) < 2)).2 3 (by decide)⟩

/-- C5: with one vehicle, one job and matrix [[0,100],[100,0]], every
feasible solve returns exactly one route, visiting the single job node 1,
with total round-trip travel 200 seconds, and the drive time the
`/optimize` loop reports for that technician is round(200/60) = 3
minutes. -/
theorem C5_example (sol : Solution 1 1) (ctechs : List CTech) (cjobs : List CJob) :
    solveVrp [[0, 100], [100, 0]] 1 1 (some sol) = .ok [([1], 200)] ∧
    ((shapeAssignments ctechs cjobs [([1], 200)]).1.map
      (fun x => x.drive_time_minutes)) = [3] ∧
    pround 200 = 3 := by
  have hone : ∃ l, sol.assign = [l] := List.length_eq_one.1 sol.assign_length
  rcases hone with ⟨l, hl⟩
  have hperm := sol.assign_perm
  rw [hl] at hperm
  have hl1 : l = [1] := by
    have : l.Perm [1] := by simpa using hperm
    exact List.perm_singleton.1 this
  have hassign : sol.assign = [[1]] := by rw [hl, hl1]
  refine ⟨?_, rfl, rfl⟩
  rw [solveVrp_eq sol, hassign]
  rfl

/-- C10: every node returned by `solve_vrp` is a job node `V ≤ node < V+J`,
so the index `node - n_technicians` used by the response-shaping loop to
read `cleaned_jobs` is always within bounds. -/
theorem C10_index_safe {m : Mat} {V J : Nat} (sol : Solution V J)
    {res : List (List Nat × Nat)} (h : solveVrp m V J (some sol) = .ok res)
    (cjobs : List CJob) (hcj : cjobs.length = J) :
    ∀ pr ∈ res, ∀ node ∈ pr.1, V ≤ node ∧ node - V < cjobs.length := by
  intro pr hpr node hnode
  have hfst := solveVrp_map_fst sol h
  have hmem : pr.1 ∈ res.map Prod.fst := List.mem_map_of_mem _ hpr
  rw [hfst] at hmem
  have hb := solution_node_bounds sol hmem hnode
  omega

/-- C10 witness: node 3 of vehicle 1's route in the `matW`/`sol22`
instance indexes `cjW` at 3 - 2 = 1 < 2. -/
theorem C10_index_safe_witness : 2 ≤ 3 ∧ 3 - 2 < cjW.length :=
  C10_index_safe sol22 (show solveVrp matW 2 2 (some sol22) =
    .ok [([2], 14), ([3], 26)] from rfl) cjW rfl (([3], 26) : List Nat × Nat)
    (by decide) 3 (by decide)

/-- C2: when any provider cell covering the request's address list has a
non-OK status, `build_distance_matrix` raises a `ValueError` whose message
names both offending addresses of a failed pair, no matrix is ever
produced, and `/optimize` returns that message as a 422 error with the
solver never invoked. -/
theorem C2_failfast (p : Provider) (search : Search) (data : OptimizeRequest)
    {cts : List CTech} {cjs : List CJob} (a : List String)
    (h1 : data.technicians.isEmpty = false) (h2 : data.jobs.isEmpty = false)
    (h3 : ¬ 10 < data.technicians.length) (h4 : ¬ 24 < data.jobs.length)
    (hct : cleanTechs 0 data.technicians = .ok cts)
    (hcj : cleanJobs 0 data.jobs = .ok cjs)
    (ha : a = cts.map (fun t => t.start_location) ++ cjs.map (fun j => j.location))
    (hws : WellShaped p) (hbad : ¬ AllOK p a) :
    ∃ msg calls, buildDistanceMatrix p a = (.error msg, calls) ∧
      (∃ i j, i < a.length ∧ j < a.length ∧
        (providerCell p a i j).status ≠ "OK" ∧
        msg = driveTimeErr (a.getD i "") (a.getD j "")
          ((providerCell p a i j).status)) ∧
      optimize p search (some data) = (.err msg 422, calls, false) := by
  rcases buildDistanceMatrix_error hws a hbad with ⟨msg, calls, heq, hwit⟩
  refine ⟨msg, calls, heq, hwit, ?_⟩
  subst ha
  simp [optimize, h1, h2, h3, h4, hct, hcj, heq]

/-- C2 witness: `badPairProvider` fails on the pair ("B", "A") of the
two-address request `reqBA`. -/
theorem C2_failfast_witness :
    ∃ msg calls,
      buildDistanceMatrix badPairProvider ["A", "B"] = (.error msg, calls) ∧
      (∃ i j, i < (["A", "B"] : List String).length ∧
        j < (["A", "B"] : List String).length ∧
        (providerCell badPairProvider ["A", "B"] i j).status ≠ "OK" ∧
        msg = driveTimeErr ((["A", "B"] : List String).getD i "")
          ((["A", "B"] : List String).getD j "")
          ((providerCell badPairProvider ["A", "B"] i j).status)) ∧
      optimize badPairProvider noSearch (some reqBA) =
        (.err msg 422, calls, false) :=
  C2_failfast badPairProvider noSearch reqBA ["A", "B"] rfl rfl (by decide)
    (by decide)
    (show cleanTechs 0 reqBA.technicians = .ok [⟨"Tech", "A"⟩] from rfl)
    (show cleanJobs 0 reqBA.jobs = .ok [⟨"Job", "B"⟩] from rfl)
    rfl (tableProvider_wellShaped _)
    (fun hAll => absurd (hAll 1 (by decide) 0 (by decide)) (by decide))

/-- C3: a cardinality violation (no technician, no job, more than 10
technicians, more than 24 jobs) or an empty location string is rejected
with a 400 error response before any provider call is made (the recorded
call trace is empty) and before the solver runs. -/
theorem C3_validation_first (p : Provider) (search : Search) (data : OptimizeRequest)
    (hviol : data.technicians.isEmpty ∨ data.jobs.isEmpty ∨
      10 < data.technicians.length ∨ 24 < data.jobs.length ∨
      (∃ t ∈ data.technicians, stripStr (t.start_location.getD "") = "") ∨
      (∃ j ∈ data.jobs, stripStr (j.location.getD "") = "")) :
    ∃ msg, optimize p search (some data) = (.err msg 400, [], false) := by
  simp only [optimize]
  by_cases h1 : data.technicians.isEmpty
  · exact ⟨_, by rw [if_pos h1]⟩
  · rw [if_neg h1]
    by_cases h2 : data.jobs.isEmpty
    · exact ⟨_, by rw [if_pos h2]⟩
    · rw [if_neg h2]
      by_cases h3 : 10 < data.technicians.length
      · exact ⟨_, by rw [if_pos h3]⟩
      · rw [if_neg h3]
        by_cases h4 : 24 < data.jobs.length
        · exact ⟨_, by rw [if_pos h4]⟩
        · rw [if_neg h4]
          rcases hviol with h | h | h | h | h | h
          · exact absurd h h1
          · exact absurd h h2
          · exact absurd h h3
          · exact absurd h h4
          · rcases cleanTechs_error_of_empty h 0 with ⟨e, he⟩
            rw [he]
            exact ⟨e, rfl⟩
          · cases hct : cleanTechs 0 data.technicians with
            | error e =>
              exact ⟨e, rfl⟩
            | ok cts =>
              rcases cleanJobs_error_of_empty h 0 with ⟨e, he⟩
              rw [he]
              exact ⟨e, rfl⟩

/-- C3 witness: a request with 11 technicians is rejected before any
provider call. -/
theorem C3_validation_first_witness :
    ∃ msg, optimize (constProvider 1) noSearch (some req11) =
      (.err msg 400, [], false) :=
  C3_validation_first (constProvider 1) noSearch req11
    (Or.inr (Or.inr (Or.inl (by decide))))

/-- C6: the builder covers the N×N matrix by ⌈N/10⌉ × ⌈N/10⌉ blocks,
issues exactly one provider call per block — ⌈N/10⌉² calls in all, each
with at most 10 origins and at most 10 destinations — and writes every
returned cell duration at position (i_start+i_offset, j_start+j_offset),
so after a successful build every cell (i, j) holds the provider's
duration for the ordered address pair (i, j). -/
theorem C6_blocked_build {p : Provider} (a : List String) (hws : WellShaped p)
    (hok : AllOK p a) :
    ∃ m, (buildDistanceMatrix p a).1 = .ok m ∧
      m.length = a.length ∧ (∀ r ∈ m, r.length = a.length) ∧
      (∀ i j, i < a.length → j < a.length →
        mget m i j = (providerCell p a i j).duration) ∧
      (buildDistanceMatrix p a).2 = (blockStarts a.length).flatMap (fun iS =>
        (blockStarts a.length).map fun jS => (sliceChunk a iS, sliceChunk a jS)) ∧
      (buildDistanceMatrix p a).2.length = numChunks a.length * numChunks a.length ∧
      (∀ c ∈ (buildDistanceMatrix p a).2,
        c.1.length ≤ chunkSize ∧ c.2.length ≤ chunkSize) := by
  rcases buildDistanceMatrix_ok hws a hok with ⟨m, hok1, hd, hcells, hcalls⟩
  refine ⟨m, hok1, hd.1, hd.2, hcells, hcalls, ?_, ?_⟩
  · rw [hcalls]
    rw [show ((blockStarts a.length).flatMap (fun iS =>
        (blockStarts a.length).map fun jS => (sliceChunk a iS, sliceChunk a jS))) =
      ((blockStarts a.length).map (fun iS =>
        (blockStarts a.length).map fun jS => (sliceChunk a iS, sliceChunk a jS))).flatten
      from rfl]
    rw [List.length_flatten, List.map_map]
    have hmap : ((blockStarts a.length).map (List.length ∘ fun iS =>
        (blockStarts a.length).map fun jS => (sliceChunk a iS, sliceChunk a jS))) =
        (blockStarts a.length).map (fun _ => numChunks a.length) :=
      List.map_congr_left (fun iS _ => by simp [blockStarts])
    rw [hmap, List.map_const', List.sum_replicate, smul_eq_mul]
    simp [blockStarts]
  · intro c hc
    rw [hcalls] at hc
    simp only [List.mem_flatMap, List.mem_map] at hc
    rcases hc with ⟨iS, _, jS, _, rfl⟩
    constructor
    · rw [length_sliceChunk]
      omega
    · rw [length_sliceChunk]
      omega

/-- C6 witness: the constant provider on two addresses — one 2×2 block,
one call, every cell filled with the provider duration 7. -/
theorem C6_blocked_build_witness :
    ∃ m, (buildDistanceMatrix (constProvider 7) ["A", "B"]).1 = .ok m ∧
      m.length = (["A", "B"] : List String).length ∧
      (∀ r ∈ m, r.length = (["A", "B"] : List String).length) ∧
      (∀ i j, i < (["A", "B"] : List String).length →
        j < (["A", "B"] : List String).length →
        mget m i j = (providerCell (constProvider 7) ["A", "B"] i j).duration) ∧
      (buildDistanceMatrix (constProvider 7) ["A", "B"]).2 =
        (blockStarts (["A", "B"] : List String).length).flatMap (fun iS =>
          (blockStarts (["A", "B"] : List String).length).map fun jS =>
            (sliceChunk ["A", "B"] iS, sliceChunk ["A", "B"] jS)) ∧
      (buildDistanceMatrix (constProvider 7) ["A", "B"]).2.length =
        numChunks (["A", "B"] : List String).length *
          numChunks (["A", "B"] : List String).length ∧
      (∀ c ∈ (buildDistanceMatrix (constProvider 7) ["A", "B"]).2,
        c.1.length ≤ chunkSize ∧ c.2.length ≤ chunkSize) :=
  C6_blocked_build ["A", "B"] (tableProvider_wellShaped _)
    (by
      intro i hi j hj
      have hi2 : i < 2 := hi
      have hj2 : j < 2 := hj
      interval_cases i <;> interval_cases j <;> rfl)

/-- C7 counterexample: with the single address "X" and a provider
reporting 5 seconds for the identical pair, the build succeeds and the
diagonal entry is 5, not 0: the builder overwrites the zero-initialised
diagonal with whatever duration the provider reports. -/
theorem C7_counterexample :
    (buildDistanceMatrix (constProvider 5) ["X"]).1 = .ok [[5]] ∧
    mget [[5]] 0 0 ≠ 0 := ⟨rfl, by decide⟩

/-- C7 (amended): every matrix returned by a successful build is N×N with
every entry the provider-reported (non-negative integer) duration for its
ordered pair; the diagonal is 0 exactly when the provider reports 0 for
each identical pair — the builder itself does not force diagonal zeros. -/
theorem C7_matrix_shape {p : Provider} (a : List String) (hws : WellShaped p)
    (hok : AllOK p a)
    (hdiag : ∀ i, i < a.length → (providerCell p a i i).duration = 0) :
    ∃ m, (buildDistanceMatrix p a).1 = .ok m ∧ m.length = a.length ∧
      (∀ r ∈ m, r.length = a.length) ∧
      (∀ i j, i < a.length → j < a.length →
        mget m i j = (providerCell p a i j).duration) ∧
      (∀ i, i < a.length → mget m i i = 0) := by
  rcases buildDistanceMatrix_ok hws a hok with ⟨m, hok1, hd, hcells, _⟩
  exact ⟨m, hok1, hd.1, hd.2, hcells, fun i hi => by
    rw [hcells i i hi hi, hdiag i hi]⟩

/-- C7 witness: `pairProvider` (0 on identical addresses) on two
addresses: the build returns a 2×2 matrix with zero diagonal. -/
theorem C7_matrix_shape_witness :
    ∃ m, (buildDistanceMatrix pairProvider ["A", "B"]).1 = .ok m ∧
      m.length = (["A", "B"] : List String).length ∧
      (∀ r ∈ m, r.length = (["A", "B"] : List String).length) ∧
      (∀ i j, i < (["A", "B"] : List String).length →
        j < (["A", "B"] : List String).length →
        mget m i j = (providerCell pairProvider ["A", "B"] i j).duration) ∧
      (∀ i, i < (["A", "B"] : List String).length → mget m i i = 0) :=
  C7_matrix_shape ["A", "B"] (tableProvider_wellShaped _)
    (by
      intro i hi j hj
      have hi2 : i < 2 := hi
      have hj2 : j < 2 := hj
      interval_cases i <;> interval_cases j <;> rfl)
    (by
      intro i hi
      have hi2 : i < 2 := hi
      interval_cases i <;> rfl)

/-- C8 counterexample: a request of the single-vehicle shape
`{start_location, job_locations}` carries no `technicians` list, so
`/optimize` rejects it with 400 "At least one technician is required."
instead of answering with an `optimized_route` response. -/
theorem C8_counterexample :
    optimize (constProvider 1) noSearch (some reqSingle) =
      (.err "At least one technician is required." 400, [], false) := rfl

/-- C8 (amended): this `/optimize` handler accepts only the multi-vehicle
form; any body without a non-empty `technicians` list — in particular the
single-vehicle shape `{start_location, job_locations}` — is rejected with
400 "At least one technician is required.", with no provider call and no
solve. -/
theorem C8_multi_only (p : Provider) (search : Search) (sl : Option String)
    (jl : Option (List String)) :
    optimize p search (some ⟨[], [], sl, jl⟩) =
      (.err "At least one technician is required." 400, [], false) := rfl

/-- C9 counterexample: a successful `/optimize` run with three technicians
whose per-vehicle round trips are 30 seconds each: the reported total is
round(90/60) = 2 minutes while each per-technician drive time rounds to 0,
so the difference 2 exceeds the claimed bound V/2 = 1.5 (2·2 ≤ 3 fails). -/
theorem C9_counterexample :
    (optimize (constProvider 15) search33 (some req33)).1 =
      .ok [⟨"Technician 1", "D1", [⟨"Job 1", "A1"⟩], 0⟩,
           ⟨"Technician 2", "D2", [⟨"Job 2", "A2"⟩], 0⟩,
           ⟨"Technician 3", "D3", [⟨"Job 3", "A3"⟩], 0⟩] 2 3 ∧
    ¬ (2 * ((2 : Int) - (0 + 0 + 0)).natAbs ≤ 3) := ⟨rfl, by decide⟩

/-- C9 (amended): for every response shaped by the `/optimize` loop,
`total_drive_time_minutes = round(total_seconds/60)` differs from the sum
of the returned per-technician `drive_time_minutes` by at most (V+1)/2 —
as integers, 2·|difference| ≤ V + 1 — where V is the number of returned
assignments; the claimed bound V/2 misses the total's own rounding half. -/
theorem C9_rounding_bound (ctechs : List CTech) (cjobs : List CJob)
    (results : List (List Nat × Nat)) :
    2 * ((pround (shapeAssignments ctechs cjobs results).2 : Int) -
      ((shapeAssignments ctechs cjobs results).1.map
        (fun x => (x.drive_time_minutes : Int))).sum).natAbs ≤
      (shapeAssignments ctechs cjobs results).1.length + 1 := by
  have hdrives : (shapeAssignments ctechs cjobs results).1.map
      (fun x => (x.drive_time_minutes : Int)) =
      results.map (fun r => ((pround r.2 : Nat) : Int)) := by
    simp only [shapeAssignments]
    rw [List.map_map]
    exact enum_map_snd_comp (fun r => ((pround r.2 : Nat) : Int)) results
  have hlen : (shapeAssignments ctechs cjobs results).1.length = results.length := by
    simp [shapeAssignments]
  have hcast : (((results.map (fun r => r.2)).map pround).sum : Int) =
      (results.map (fun r => ((pround r.2 : Nat) : Int))).sum := by
    rw [Nat.cast_list_sum, List.map_map, List.map_map]
    rfl
  rw [hdrives, hlen, ← hcast]
  have := total_minutes_close (results.map (fun r => r.2))
  simpa using this

end RouteWriter
